import Mathlib

/-
Verification of the mini-agent repository's core subsystems: the
network-backed virtual filesystem adapters (virtual-node tree and
call-interception strategies), the fetch-failure error translation, the
execution state container with its serialize/deserialize/clone
operations, and the durable step loop with snapshot-based resume.

Paths and byte buffers are modelled as lists (JavaScript strings are
character sequences); the blocking fetch bridge is modelled as an oracle
`fetch : JStr -> Option Bytes` (`none` = non-2xx status or transport
error), and every adapter entry point additionally returns the list of
URLs it handed to the bridge, so fetch-count properties are expressible.
-/

namespace MiniAgent

abbrev JStr := List Char

abbrev Bytes := List Nat

def slash : Char := '/'

/-- The `"://"` separator used by `pathToURL`. -/
def schemeSep : JStr := [':', '/', '/']

def mountPointDefault : JStr := "/network".data

def schemeDefault : JStr := "https".data

/-- Association-list lookup (models `Map.has`/`Map.get` and plain-object
indexing in the source; later bindings shadow earlier ones, matching the
model's insertion at the head). -/
def alistGet {α β : Type} [DecidableEq α] : List (α × β) → α → Option β
  | [], _ => none
  | (k, v) :: rest, key => if key = k then some v else alistGet rest key

/-- `s.startsWith(pre)` for JavaScript strings. -/
def jsStartsWith (s pre : JStr) : Bool := decide (pre <+: s)

/-- `remote.replace(/^\/+/, "")` — strip the leading run of slashes. -/
def stripLeadingSlashes (r : JStr) : JStr := r.dropWhile (fun c => decide (c = slash))

/-- Error taxonomy observed at the adapter boundary.  `transport` is the
raw worker-side failure (never surfaced by the adapters), `enoent` is
errno 44, `erofs` errno 30, `einval` errno 22. -/
inductive AdapterError : Type
  | enoent : AdapterError
  | erofs : AdapterError
  | einval : AdapterError
  | transport : JStr → AdapterError
deriving DecidableEq

/- ========================================================================
   Virtual-node-tree adapter (part_000): NetworkFileSystem
   ======================================================================== -/

/-- `NetworkFileSystem.pathToURL`: prepend the scheme to a remote path. -/
def pathToURL (scheme remotePath : JStr) : JStr := scheme ++ schemeSep ++ remotePath

/-- The in-memory cache: remote path to raw bytes. -/
abbrev Cache := List (JStr × Bytes)

/-- The remote path built by `lookup` from the parent node and child
name: `parent.remote_path + "/" + name`, or just `name` when the parent
remote path is empty (the mounted root). -/
def remoteOf (parentRemote name : JStr) : JStr :=
  if parentRemote = [] then name else parentRemote ++ slash :: name

/-- `createNodeOps().lookup` of the general adapter: on a cache miss it
fetches `scheme://remotePath` via the bridge, populates the cache and
returns the node's remote path; a failed fetch is translated to ENOENT.
The second component lists the URLs passed to the fetch bridge. -/
def nodeLookup (scheme : JStr) (fetch : JStr → Option Bytes) (cache : Cache)
    (parentRemote name : JStr) :
    Except AdapterError (Cache × JStr) × List JStr :=
  if (alistGet cache (remoteOf parentRemote name)).isSome then
    (Except.ok (cache, remoteOf parentRemote name), [])
  else
    match fetch (pathToURL scheme (remoteOf parentRemote name)) with
    | some data =>
        (Except.ok ((remoteOf parentRemote name, data) :: cache,
          remoteOf parentRemote name),
         [pathToURL scheme (remoteOf parentRemote name)])
    | none =>
        (Except.error AdapterError.enoent,
         [pathToURL scheme (remoteOf parentRemote name)])

def currentIpName : JStr := "current-ip".data

def currentIpURL : JStr := "https://icanhazip.com/".data

/-- The static allow-list of the restricted-registry agent variant. -/
def KNOWN_RESOURCES : List (JStr × JStr) := [(currentIpName, currentIpURL)]

/-- `createNodeOps().lookup` of the restricted-registry agent variant:
the remote path is `parent.remote_path + "/" + name`; an unknown name
fails with ENOENT before any fetch; a known name is fetched from its
fixed locator, and a failed fetch is also translated to ENOENT. -/
def restrictedLookup (fetch : JStr → Option Bytes) (cache : Cache)
    (parentRemote name : JStr) :
    Except AdapterError (Cache × JStr) × List JStr :=
  if (alistGet cache (parentRemote ++ slash :: name)).isSome then
    (Except.ok (cache, parentRemote ++ slash :: name), [])
  else
    match alistGet KNOWN_RESOURCES name with
    | none => (Except.error AdapterError.enoent, [])
    | some url =>
        match fetch url with
        | some data =>
            (Except.ok ((parentRemote ++ slash :: name, data) :: cache,
              parentRemote ++ slash :: name), [url])
        | none => (Except.error AdapterError.enoent, [url])

/-- `createStreamOps().read`: slice `[position, min(len, position+length))`
out of the cached bytes and return the copied slice together with the
count `end - start` computed by the source (an integer). -/
def streamRead (cache : Cache) (remotePath : JStr) (length position : Nat) :
    Bytes × Int :=
  match alistGet cache remotePath with
  | none => ([], 0)
  | some bytes =>
      ((bytes.take (min bytes.length (position + length))).drop position,
       (min bytes.length (position + length) : Int) - (position : Int))

/-- `createStreamOps().llseek`: absolute / relative / end-relative
positioning over the cached size; a negative result throws EINVAL. -/
def llseek (cache : Cache) (remotePath : JStr) (streamPos : Int)
    (offset : Int) (whence : Nat) : Except AdapterError Int :=
  let size : Int := match alistGet cache remotePath with
    | some bytes => bytes.length
    | none => 0
  let pos : Int :=
    if whence = 0 then offset
    else if whence = 1 then streamPos + offset
    else if whence = 2 then size + offset
    else streamPos
  if pos < 0 then Except.error AdapterError.einval else Except.ok pos

/-- `createNodeOps().mknod`: unconditionally throws EROFS, touching
neither the cache nor the fetch bridge. -/
def nodeMknod (_fetch : JStr → Option Bytes) (cache : Cache)
    (_parentRemote _name : JStr) : Except AdapterError Unit × Cache × List JStr :=
  (Except.error AdapterError.erofs, cache, [])

/-- `createNodeOps().rename`: unconditionally throws EROFS. -/
def nodeRename (_fetch : JStr → Option Bytes) (cache : Cache)
    (_oldRemote _newName : JStr) : Except AdapterError Unit × Cache × List JStr :=
  (Except.error AdapterError.erofs, cache, [])

/-- `createNodeOps().rmdir`: unconditionally throws EROFS. -/
def nodeRmdir (_fetch : JStr → Option Bytes) (cache : Cache)
    (_remotePath : JStr) : Except AdapterError Unit × Cache × List JStr :=
  (Except.error AdapterError.erofs, cache, [])

/-- `createNodeOps().unlink`: unconditionally throws EROFS. -/
def nodeUnlink (_fetch : JStr → Option Bytes) (cache : Cache)
    (_remotePath : JStr) : Except AdapterError Unit × Cache × List JStr :=
  (Except.error AdapterError.erofs, cache, [])

/-- `createNodeOps().setattr`: unconditionally throws EROFS. -/
def nodeSetattr (_fetch : JStr → Option Bytes) (cache : Cache)
    (_remotePath : JStr) : Except AdapterError Unit × Cache × List JStr :=
  (Except.error AdapterError.erofs, cache, [])

/-- Repeat the same `lookup` access `n` times, threading the cache and
collecting all fetched URLs plus the bytes served to each access (the
bytes a subsequent `read` of the node would return). -/
def accessRepeat (scheme : JStr) (fetch : JStr → Option Bytes)
    (parentRemote name : JStr) : Nat → Cache → Cache × List JStr × List Bytes
  | 0, c => (c, [], [])
  | n + 1, c =>
      match nodeLookup scheme fetch c parentRemote name with
      | (Except.ok (c', rp), urls) =>
          let rest := accessRepeat scheme fetch parentRemote name n c'
          (rest.1, urls ++ rest.2.1, ((alistGet c' rp).getD []) :: rest.2.2)
      | (Except.error _, urls) => (c, urls, [])

/- ========================================================================
   Call-interception adapter (original-agent.js): NetworkFileSystem
   ======================================================================== -/

/-- `isWithinMount`: the path is the mount point itself or starts with
`mountPoint + "/"`. -/
def isWithinMount (mount p : JStr) : Bool :=
  decide (p = mount) || jsStartsWith p (mount ++ [slash])

/-- `extractRemotePath`: strip the mount prefix once, then strip any
leading run of slashes; empty for paths outside the mount. -/
def extractRemotePath (mount p : JStr) : JStr :=
  if isWithinMount mount p then
    stripLeadingSlashes
      (if jsStartsWith p (if mount = [slash] then [slash] else mount ++ [slash]) then
        p.drop (if mount = [slash] then [slash] else mount ++ [slash]).length
      else p)
  else []

/-- `normalizeToMount`: an empty path maps to `null`; a path already
starting with the mount point is kept; any other absolute path is
prefixed with the mount point; a relative path gets `mountPoint + "/"`
prepended. -/
def normalizeToMount (mount p : JStr) : Option JStr :=
  if p = [] then none
  else if jsStartsWith p mount then some p
  else if jsStartsWith p [slash] then some (mount ++ p)
  else some (mount ++ slash :: p)

/-- `pathToURL` of the interception adapter: extract the remote path and
prepend the scheme; an empty remote path throws (`none`). -/
def pathToURLMounted (mount scheme p : JStr) : Option JStr :=
  if extractRemotePath mount p = [] then none
  else some (pathToURL scheme (extractRemotePath mount p))

/-- The cache-entry metadata stored by `ensureFileSync`. -/
structure Meta : Type where
  path : JStr
  url : JStr
  bytes : Nat
deriving DecidableEq

/-- The mutable state the interception adapter touches: its `cache` map
and the set of paths materialized in the host (Emscripten) filesystem. -/
structure InterceptState : Type where
  cache : List (JStr × Meta)
  hostFiles : List JStr
deriving DecidableEq

/-- `fileExists`: `original.stat` succeeds on the path. -/
def fileExists (st : InterceptState) (p : JStr) : Bool := decide (p ∈ st.hostFiles)

/-- The fetch-and-materialize tail of `ensureFileSync`: fetch the URL,
translate a failure to ENOENT, otherwise write the file, record the
metadata in the cache and return it.  The last component lists the URLs
passed to the fetch bridge. -/
def ensureFetch (scheme : JStr) (fetch : JStr → Option Bytes)
    (st : InterceptState) (fsPath remotePath : JStr) :
    Except AdapterError (Option Meta) × InterceptState × List JStr :=
  match fetch (pathToURL scheme remotePath) with
  | none =>
      (Except.error AdapterError.enoent, st, [pathToURL scheme remotePath])
  | some data =>
      (Except.ok (some (Meta.mk fsPath (pathToURL scheme remotePath) data.length)),
       InterceptState.mk
         ((fsPath, Meta.mk fsPath (pathToURL scheme remotePath) data.length) :: st.cache)
         (fsPath :: st.hostFiles),
       [pathToURL scheme remotePath])

/-- `ensureFileSync`: normalize the argument onto the mount, bail out
(`null`, no fetch) for paths outside the mount or with an empty
remainder, serve a cached entry whose materialized file still exists,
and otherwise fetch and materialize. -/
def ensureFileSync (mount scheme : JStr) (fetch : JStr → Option Bytes)
    (st : InterceptState) (p : JStr) :
    Except AdapterError (Option Meta) × InterceptState × List JStr :=
  match normalizeToMount mount p with
  | none => (Except.ok none, st, [])
  | some fsPath =>
      if isWithinMount mount fsPath then
        if extractRemotePath mount fsPath = [] then (Except.ok none, st, [])
        else
          match alistGet st.cache fsPath, fileExists st fsPath with
          | some meta, true => (Except.ok (some meta), st, [])
          | _, _ => ensureFetch scheme fetch st fsPath (extractRemotePath mount fsPath)
      else (Except.ok none, st, [])

/-- The `flags` argument of `FS.open`: either a mode string or a numeric
flag word. -/
inductive OpenFlags : Type
  | str : JStr → OpenFlags
  | num : Nat → OpenFlags
deriving DecidableEq

/-- `shouldFetchForOpen`: string modes fetch unless they contain `w` or
`a`; numeric modes fetch unless the access bits equal `O_WRONLY`. -/
def shouldFetchForOpen : OpenFlags → Bool
  | OpenFlags.str s => decide (¬ 'w' ∈ s ∧ ¬ 'a' ∈ s)
  | OpenFlags.num flags => decide (Nat.land flags 3 ≠ 1)

/-- `patchedOpen` (the hooked `FS.open`): normalize the path argument,
run `ensureFileSync` when the flags request read access, then delegate
to the original `open` with the unmodified arguments (the `ok` payload
records the delegated arguments). -/
def patchedOpen (mount scheme : JStr) (fetch : JStr → Option Bytes)
    (st : InterceptState) (pathArg : JStr) (flags : OpenFlags) :
    Except AdapterError (JStr × OpenFlags) × InterceptState × List JStr :=
  match normalizeToMount mount pathArg with
  | none => (Except.ok (pathArg, flags), st, [])
  | some normalized =>
      if shouldFetchForOpen flags then
        match ensureFileSync mount scheme fetch st normalized with
        | (Except.error e, st', urls) => (Except.error e, st', urls)
        | (Except.ok _, st', urls) => (Except.ok (pathArg, flags), st', urls)
      else (Except.ok (pathArg, flags), st, [])

/-- `patchedStat` (the hooked `FS.stat`): normalize the path argument,
always run `ensureFileSync` on the normalized path, then delegate to the
original `stat` with the unmodified argument (the `ok` payload records
the delegated argument). -/
def patchedStat (mount scheme : JStr) (fetch : JStr → Option Bytes)
    (st : InterceptState) (pathArg : JStr) :
    Except AdapterError JStr × InterceptState × List JStr :=
  match normalizeToMount mount pathArg with
  | none => (Except.ok pathArg, st, [])
  | some normalized =>
      match ensureFileSync mount scheme fetch st normalized with
      | (Except.error e, st', urls) => (Except.error e, st', urls)
      | (Except.ok _, st', urls) => (Except.ok pathArg, st', urls)

/- ========================================================================
   Execution state container (part_000): AgentState
   ======================================================================== -/

/-- The captured stdout/stderr pair. -/
structure OutputCapture : Type where
  stdout : JStr
  stderr : JStr
deriving DecidableEq

/-- The `metadata` field of `AgentState`. -/
structure AgentMetadata : Type where
  taskId : Option JStr
  createdAt : Nat
  lastModified : Nat
deriving DecidableEq

/-- `AgentState`: conversation turns (opaque payloads), step counter,
captured output, the serialized network cache (path to base64), the
output artifacts (name to base64), the completion flag, and metadata. -/
structure AgentState : Type where
  messages : List JStr
  stepCount : Nat
  outputCapture : OutputCapture
  networkCache : List (JStr × JStr)
  outputFiles : List (JStr × JStr)
  done : Bool
  metadata : AgentMetadata
deriving DecidableEq

/-- The JSON-compatible record produced by `serialize`; `none` models a
field absent from a record written by an earlier version. -/
structure StateRecord : Type where
  messages : Option (List JStr)
  stepCount : Option Nat
  outputCapture : Option OutputCapture
  networkCache : Option (List (JStr × JStr))
  outputFiles : Option (List (JStr × JStr))
  done : Option Bool
  metadata : Option AgentMetadata
deriving DecidableEq

/-- `AgentState.serialize`: copy every field into the record, updating
`metadata.lastModified` to the serialization time `now`. -/
def AgentState.serialize (s : AgentState) (now : Nat) : StateRecord :=
  StateRecord.mk (some s.messages) (some s.stepCount) (some s.outputCapture)
    (some s.networkCache) (some s.outputFiles) (some s.done)
    (some (AgentMetadata.mk s.metadata.taskId s.metadata.createdAt now))

/-- `AgentState.deserialize` (via the constructor): every missing field
defaults to its empty value; `now` is the clock read for the default
metadata timestamps. -/
def AgentState.deserialize (r : StateRecord) (now : Nat) : AgentState :=
  AgentState.mk (r.messages.getD []) (r.stepCount.getD 0)
    (r.outputCapture.getD (OutputCapture.mk [] []))
    (r.networkCache.getD []) (r.outputFiles.getD []) (r.done.getD false)
    (r.metadata.getD (AgentMetadata.mk none now now))

/-- A record with every field absent (an empty legacy record). -/
def emptyRecord : StateRecord :=
  StateRecord.mk none none none none none none none

/- ========================================================================
   Reference-level model of AgentState.clone (part_000)

   `clone()` spreads each top-level container, so the clone gets fresh
   containers, but the elements of `messages` are JavaScript objects
   copied by reference.  The heap makes that sharing observable: array
   cells hold lists of message addresses, message cells hold payloads.
   ======================================================================== -/

/-- `listAt d l i`: the `i`-th cell of `l`, or `d` out of range. -/
def listAt {α : Type} (d : α) : List α → Nat → α
  | [], _ => d
  | x :: _, 0 => x
  | _ :: xs, n + 1 => listAt d xs n

/-- `listSet l i v`: overwrite the `i`-th cell of `l` in place. -/
def listSet {α : Type} : List α → Nat → α → List α
  | [], _, _ => []
  | _ :: xs, 0, v => v :: xs
  | x :: xs, n + 1, v => x :: listSet xs n v

/-- The heap backing message arrays and message objects. -/
structure MsgHeap : Type where
  arrays : List (List Nat)
  cells : List JStr
deriving DecidableEq

/-- `AgentState` at the reference level: `messagesRef` is the address of
the messages array in the heap; the remaining containers hold only
immutable leaves and are modelled by value. -/
structure AgentStateRef : Type where
  messagesRef : Nat
  stepCount : Nat
  outputCapture : OutputCapture
  networkCache : List (JStr × JStr)
  outputFiles : List (JStr × JStr)
  done : Bool
  metadata : AgentMetadata
deriving DecidableEq

/-- `AgentState.clone`: `[...this.messages]` allocates a fresh array
cell holding the same element addresses; every other field is copied by
value (their spreads contain only immutable leaves). -/
def cloneRef (h : MsgHeap) (s : AgentStateRef) : MsgHeap × AgentStateRef :=
  (MsgHeap.mk (h.arrays ++ [listAt [] h.arrays s.messagesRef]) h.cells,
   AgentStateRef.mk h.arrays.length s.stepCount s.outputCapture s.networkCache
     s.outputFiles s.done s.metadata)

/-- `state.messages.push(m)`: append a message address to an array cell. -/
def arrayPush (h : MsgHeap) (a : Nat) (r : Nat) : MsgHeap :=
  MsgHeap.mk (listSet h.arrays a (listAt [] h.arrays a ++ [r])) h.cells

/-- In-place mutation of a message object (e.g. rewriting its content). -/
def setCell (h : MsgHeap) (r : Nat) (v : JStr) : MsgHeap :=
  MsgHeap.mk h.arrays (listSet h.cells r v)

/-- The messages of a state as observed through the heap. -/
def readMessages (h : MsgHeap) (s : AgentStateRef) : List JStr :=
  (listAt [] h.arrays s.messagesRef).map (fun r => listAt [] h.cells r)

/- ========================================================================
   Durable step loop (part_000): agenticLoop / StateCache
   ======================================================================== -/

/-- The persisted snapshots of one task, keyed by step number
(`StateCache` files `taskId-step-N.json`). -/
abbrev SnapStore := List (Nat × AgentState)

/-- The `while (state.stepCount < maxSteps)` loop of `agenticLoop` with
`useCache` enabled: each iteration looks up the snapshot for the next
step; if present it is adopted and execution is skipped, otherwise
`runAgenticStep` (`exec`) runs and the resulting state is persisted
under its new step count.  The loop stops on the completion flag or the
step cap.  `fuel` bounds the recursion; the last component counts the
executed (non-resumed) steps — the number of reasoning-collaborator
calls. -/
def agenticLoopAux (exec : AgentState → AgentState) (maxSteps : Nat) :
    Nat → AgentState → SnapStore → Nat → AgentState × SnapStore × Nat
  | 0, s, store, cnt => (s, store, cnt)
  | fuel + 1, s, store, cnt =>
      if s.stepCount < maxSteps then
        match alistGet store (s.stepCount + 1) with
        | some cached =>
            if cached.done then (cached, store, cnt)
            else agenticLoopAux exec maxSteps fuel cached store cnt
        | none =>
            if (exec s).done then
              (exec s, ((exec s).stepCount, exec s) :: store, cnt + 1)
            else
              agenticLoopAux exec maxSteps fuel (exec s)
                (((exec s).stepCount, exec s) :: store) (cnt + 1)
      else (s, store, cnt)

/- ========================================================================
   Concrete fixtures for witnesses and counterexamples
   ======================================================================== -/

def bytesW : Bytes := [52, 50]

def fetchSomeW : JStr → Option Bytes := fun _ => some bytesW

def fetchNoneW : JStr → Option Bytes := fun _ => none

def nameW : JStr := "a".data

def pSlashA : JStr := "/network/a".data

def pDoubleSlashA : JStr := "/network//a".data

def etcHosts : JStr := "/etc/hosts".data

def etcHostsTail : JStr := "etc/hosts".data

def metaW : Meta := Meta.mk pSlashA (pathToURL schemeDefault nameW) bytesW.length

def stW : InterceptState := InterceptState.mk [(pSlashA, metaW)] [pSlashA]

def emptyStW : InterceptState := InterceptState.mk [] []

def msgA : JStr := "hello".data

def msgB : JStr := "mutated".data

def heapCex : MsgHeap := MsgHeap.mk [[0]] [msgA]

def stateRefCex : AgentStateRef :=
  AgentStateRef.mk 0 0 (OutputCapture.mk [] []) [] [] false (AgentMetadata.mk none 0 0)

def stateW (n : Nat) : AgentState :=
  AgentState.mk [] n (OutputCapture.mk [] []) [] [] false (AgentMetadata.mk none 0 0)

def execW (s : AgentState) : AgentState :=
  AgentState.mk s.messages (s.stepCount + 1) s.outputCapture s.networkCache
    s.outputFiles false s.metadata

def storeW : SnapStore := [(1, stateW 1), (2, stateW 2)]

/- ========================================================================
   Theorems
   ======================================================================== -/

/-- C10: every mutating node operation (create, rename, remove
directory, unlink, set attributes) on the mounted namespace fails with
EROFS for every input, leaves the cache untouched, and passes nothing
to the fetch bridge. -/
theorem mutating_ops_always_erofs (fetch : JStr → Option Bytes) (cache : Cache)
    (parentRemote name oldRemote newName rp : JStr) :
    nodeMknod fetch cache parentRemote name = (Except.error AdapterError.erofs, cache, []) ∧
    nodeRename fetch cache oldRemote newName = (Except.error AdapterError.erofs, cache, []) ∧
    nodeRmdir fetch cache rp = (Except.error AdapterError.erofs, cache, []) ∧
    nodeUnlink fetch cache rp = (Except.error AdapterError.erofs, cache, []) ∧
    nodeSetattr fetch cache rp = (Except.error AdapterError.erofs, cache, []) :=
  ⟨rfl, rfl, rfl, rfl, rfl⟩

/-- C6: deserializing a serialized state reproduces every field except
`metadata.lastModified`, which `serialize` set to its clock reading
`now`; and a record with every field missing deserializes to the empty
default state instead of failing. -/
theorem serialize_deserialize_round_trip (s : AgentState) (now now2 now3 : Nat) :
    AgentState.deserialize (AgentState.serialize s now) now2 =
      AgentState.mk s.messages s.stepCount s.outputCapture s.networkCache
        s.outputFiles s.done
        (AgentMetadata.mk s.metadata.taskId s.metadata.createdAt now) ∧
    AgentState.deserialize emptyRecord now3 =
      AgentState.mk [] 0 (OutputCapture.mk [] []) [] [] false
        (AgentMetadata.mk none now3 now3) :=
  ⟨rfl, rfl⟩

/-- C9: a read of a materialized file of length `L` returns exactly the
byte slice `[position, min(position+length, L))` — the first `length`
bytes after dropping `position` — with the count the source computes; a
read at `position = L` returns no bytes and count `0`, and an
over-length read clamps to the available bytes rather than erring. -/
theorem stream_read_slice_clamps (cache : Cache) (rp : JStr) (bytes : Bytes)
    (len pos : Nat) (hc : alistGet cache rp = some bytes) :
    (streamRead cache rp len pos).1 = (bytes.drop pos).take len ∧
    streamRead cache rp len bytes.length = ([], 0) ∧
    (streamRead cache rp len pos).2 =
      (min (pos + len) bytes.length : Int) - (pos : Int) := by
  refine ⟨?_, ?_, ?_⟩
  · simp only [streamRead, hc]
    rw [List.drop_take]
    rcases le_total (pos + len) bytes.length with hle | hle
    · rw [min_eq_right hle]
      congr 1
      omega
    · rw [min_eq_left hle]
      have hxs : (bytes.drop pos).length = bytes.length - pos := List.length_drop ..
      rw [show bytes.length - pos = (bytes.drop pos).length from by omega]
      rw [List.take_length]
      exact (List.take_of_length_le (by omega)).symm
  · simp only [streamRead, hc]
    rw [min_eq_left (Nat.le_add_right ..)]
    rw [List.take_length, List.drop_length]
    simp
  · simp only [streamRead, hc]
    rw [min_comm]

/-- C9 witness: slicing a concrete two-byte cached file, including the
read at end-of-file and the clamped count. -/
theorem stream_read_slice_clamps_witness :
    (streamRead [(nameW, bytesW)] nameW 5 1).1 = (bytesW.drop 1).take 5 ∧
    streamRead [(nameW, bytesW)] nameW 5 bytesW.length = ([], 0) ∧
    (streamRead [(nameW, bytesW)] nameW 5 1).2 =
      (min (1 + 5) bytesW.length : Int) - (1 : Int) :=
  stream_read_slice_clamps [(nameW, bytesW)] nameW bytesW 5 1 (by decide)

/-- C8: in the restricted-registry adapter, looking up `current-ip`
under the mount fetches exactly its fixed locator and caches the bytes,
while looking up any name outside the allow-list fails with ENOENT and
hands nothing to the fetch bridge. -/
theorem restricted_registry_allowlist :
    (∀ (fetch : JStr → Option Bytes) (b : Bytes), fetch currentIpURL = some b →
      restrictedLookup fetch [] [] currentIpName =
        (Except.ok ([(slash :: currentIpName, b)], slash :: currentIpName),
         [currentIpURL])) ∧
    (∀ (fetch : JStr → Option Bytes) (name : JStr),
      alistGet KNOWN_RESOURCES name = none →
      restrictedLookup fetch [] [] name = (Except.error AdapterError.enoent, [])) := by
  constructor
  · intro fetch b hf
    simp [restrictedLookup, alistGet, hf]
  · intro fetch name hr
    have hne : name ≠ currentIpName := by
      intro h
      rw [h] at hr
      simp [alistGet, KNOWN_RESOURCES] at hr
    simp [restrictedLookup, alistGet, KNOWN_RESOURCES, hne]

/-- C8 witness: the allow-listed name succeeds against a concrete
bridge, and the concrete unlisted name `a` fails without a fetch. -/
theorem restricted_registry_allowlist_witness :
    restrictedLookup fetchSomeW [] [] currentIpName =
      (Except.ok ([(slash :: currentIpName, bytesW)], slash :: currentIpName),
       [currentIpURL]) ∧
    restrictedLookup fetchSomeW [] [] nameW = (Except.error AdapterError.enoent, []) :=
  ⟨restricted_registry_allowlist.1 fetchSomeW bytesW rfl,
   restricted_registry_allowlist.2 fetchSomeW nameW (by decide)⟩

/-- Helper: a path of the shape `mountPoint ++ "/" ++ r` is within the
mount. -/
theorem isWithinMount_mount_append (mount r : JStr) :
    isWithinMount mount (mount ++ slash :: r) = true := by
  have h : jsStartsWith (mount ++ slash :: r) (mount ++ [slash]) = true := by
    simp only [jsStartsWith, decide_eq_true_eq]
    exact ⟨r, by simp⟩
  simp [isWithinMount, h]

/-- Helper: extracting the remote path of `mountPoint ++ "/" ++ r`
strips the prefix exactly once and then the leading slashes of `r`. -/
theorem extractRemotePath_mount_append (mount r : JStr) (hm : mount ≠ [slash]) :
    extractRemotePath mount (mount ++ slash :: r) = stripLeadingSlashes r := by
  have hpre : jsStartsWith (mount ++ slash :: r) (mount ++ [slash]) = true := by
    simp only [jsStartsWith, decide_eq_true_eq]
    exact ⟨r, by simp⟩
  rw [extractRemotePath, if_pos (isWithinMount_mount_append mount r)]
  rw [if_neg hm, hpre]
  simp only [if_true]
  congr 1
  rw [show mount ++ slash :: r = (mount ++ [slash]) ++ r from by simp,
    List.drop_left]

/-- C5: when the on-demand fetch of an uncached virtual path fails, the
adapter fails with the filesystem missing-entry error ENOENT — never
with the raw transport error — in the general node-tree lookup, the
restricted-registry lookup, and the interception adapter's
`ensureFileSync` alike. -/
theorem fetch_failure_surfaces_enoent :
    (∀ (scheme : JStr) (fetch : JStr → Option Bytes) (cache : Cache)
      (parentRemote name : JStr),
      alistGet cache (remoteOf parentRemote name) = none →
      fetch (pathToURL scheme (remoteOf parentRemote name)) = none →
      nodeLookup scheme fetch cache parentRemote name =
        (Except.error AdapterError.enoent,
         [pathToURL scheme (remoteOf parentRemote name)])) ∧
    (∀ (fetch : JStr → Option Bytes) (cache : Cache) (parentRemote name url : JStr),
      alistGet cache (parentRemote ++ slash :: name) = none →
      alistGet KNOWN_RESOURCES name = some url →
      fetch url = none →
      restrictedLookup fetch cache parentRemote name =
        (Except.error AdapterError.enoent, [url])) ∧
    (∀ (mount scheme : JStr) (fetch : JStr → Option Bytes) (st : InterceptState)
      (p fsPath : JStr),
      normalizeToMount mount p = some fsPath →
      isWithinMount mount fsPath = true →
      extractRemotePath mount fsPath ≠ [] →
      alistGet st.cache fsPath = none →
      fetch (pathToURL scheme (extractRemotePath mount fsPath)) = none →
      ensureFileSync mount scheme fetch st p =
        (Except.error AdapterError.enoent, st,
         [pathToURL scheme (extractRemotePath mount fsPath)])) := by
  refine ⟨?_, ?_, ?_⟩
  · intro scheme fetch cache parentRemote name h1 h2
    simp [nodeLookup, h1, h2]
  · intro fetch cache parentRemote name url h1 h2 h3
    simp [restrictedLookup, h1, h2, h3]
  · intro mount scheme fetch st p fsPath hn hw hne hcache hf
    rw [ensureFileSync, hn]
    simp only [hw, if_true, if_neg hne, hcache]
    rw [ensureFetch, hf]

/-- C5 witness: a concrete always-failing bridge yields ENOENT through
all three entry points. -/
theorem fetch_failure_surfaces_enoent_witness :
    nodeLookup schemeDefault fetchNoneW [] [] nameW =
      (Except.error AdapterError.enoent,
       [pathToURL schemeDefault (remoteOf [] nameW)]) ∧
    restrictedLookup fetchNoneW [] [] currentIpName =
      (Except.error AdapterError.enoent, [currentIpURL]) ∧
    ensureFileSync mountPointDefault schemeDefault fetchNoneW emptyStW pSlashA =
      (Except.error AdapterError.enoent, emptyStW,
       [pathToURL schemeDefault (extractRemotePath mountPointDefault pSlashA)]) :=
  ⟨fetch_failure_surfaces_enoent.1 schemeDefault fetchNoneW [] [] nameW rfl rfl,
   fetch_failure_surfaces_enoent.2.1 fetchNoneW [] [] currentIpName currentIpURL
     rfl (by decide) rfl,
   fetch_failure_surfaces_enoent.2.2 mountPointDefault schemeDefault fetchNoneW
     emptyStW pSlashA pSlashA (by decide) (by decide) (by decide) rfl rfl⟩

/-- C4 counterexample: `/network/a` and `/network//a` both lie under
the mount and have distinct post-prefix suffixes (`a` versus `/a`), yet
they map to the same locator `https://a` — so `pathToURL` is not
injective over post-prefix suffixes as the claim states. -/
theorem pathToURL_suffix_collision_cex :
    isWithinMount mountPointDefault pSlashA = true ∧
    isWithinMount mountPointDefault pDoubleSlashA = true ∧
    pSlashA.drop (mountPointDefault.length + 1) ≠
      pDoubleSlashA.drop (mountPointDefault.length + 1) ∧
    pathToURLMounted mountPointDefault schemeDefault pSlashA =
      pathToURLMounted mountPointDefault schemeDefault pDoubleSlashA := by
  decide

/-- C4 (amended): the mapping strips the mount prefix exactly once and
then strips leading slashes from the remainder; it is injective up to
that slash-stripping — equal locators force equal extracted remote
paths — and the node-tree variant's `pathToURL` is injective over
remote paths. -/
theorem pathToURL_injective_up_to_leading_slashes
    (mount scheme r r1 r2 p1 p2 : JStr) (hm : mount ≠ [slash]) :
    extractRemotePath mount (mount ++ slash :: r) = stripLeadingSlashes r ∧
    (pathToURL scheme r1 = pathToURL scheme r2 → r1 = r2) ∧
    (pathToURLMounted mount scheme p1 = pathToURLMounted mount scheme p2 →
      extractRemotePath mount p1 = extractRemotePath mount p2) := by
  refine ⟨extractRemotePath_mount_append mount r hm, ?_, ?_⟩
  · intro h
    exact List.append_cancel_left h
  · intro h
    simp only [pathToURLMounted] at h
    by_cases he1 : extractRemotePath mount p1 = []
    · by_cases he2 : extractRemotePath mount p2 = []
      · rw [he1, he2]
      · rw [if_pos he1, if_neg he2] at h
        exact absurd h (by simp)
    · by_cases he2 : extractRemotePath mount p2 = []
      · rw [if_neg he1, if_pos he2] at h
        exact absurd h (by simp)
      · rw [if_neg he1, if_neg he2] at h
        exact List.append_cancel_left (Option.some.inj h)

/-- C4 witness: stripping under the default mount on a concrete
remainder, and the injectivity consequence at the two concrete colliding
paths. -/
theorem pathToURL_injective_up_to_leading_slashes_witness :
    extractRemotePath mountPointDefault (mountPointDefault ++ slash :: nameW) =
      stripLeadingSlashes nameW ∧
    extractRemotePath mountPointDefault pSlashA =
      extractRemotePath mountPointDefault pDoubleSlashA :=
  ⟨(pathToURL_injective_up_to_leading_slashes mountPointDefault schemeDefault
      nameW nameW nameW pSlashA pDoubleSlashA (by decide)).1,
   (pathToURL_injective_up_to_leading_slashes mountPointDefault schemeDefault
      nameW nameW nameW pSlashA pDoubleSlashA (by decide)).2.2 (by decide)⟩

/-- C2 counterexample: `/etc/hosts` is not under the mount, yet the
patched `stat` and the patched read-mode `open` both rewrite it into
the mount and hand a URL to the fetch bridge (and, the bridge failing,
raise ENOENT instead of delegating) — the original entry points' exact
calling contract is not preserved for paths outside the mount. -/
theorem patched_entry_points_outside_mount_cex :
    isWithinMount mountPointDefault etcHosts = false ∧
    (patchedStat mountPointDefault schemeDefault fetchNoneW emptyStW etcHosts).2.2 ≠ [] ∧
    (patchedStat mountPointDefault schemeDefault fetchNoneW emptyStW etcHosts).1 =
      Except.error AdapterError.enoent ∧
    (patchedOpen mountPointDefault schemeDefault fetchNoneW emptyStW etcHosts
      (OpenFlags.num 0)).2.2 ≠ [] :=
  ⟨by decide, by decide, rfl, by decide⟩

/-- C2 (amended): a non-empty absolute path that does not start with
the mount point is not passed through untouched: `normalizeToMount`
rewrites it to `mountPoint ++ path`, which lies inside the mount, and
(when the rewritten path is not cached and its slash-stripped remainder
is non-empty) the patched `stat` hands exactly one URL — the scheme
applied to the slash-stripped remainder — to the fetch bridge. -/
theorem patchedStat_rewrites_outside_paths_into_mount
    (mount scheme : JStr) (fetch : JStr → Option Bytes) (st : InterceptState)
    (p' : JStr) (hm : mount ≠ [slash])
    (hout : jsStartsWith (slash :: p') mount = false)
    (hrem : stripLeadingSlashes p' ≠ [])
    (hcache : alistGet st.cache (mount ++ slash :: p') = none) :
    normalizeToMount mount (slash :: p') = some (mount ++ slash :: p') ∧
    isWithinMount mount (mount ++ slash :: p') = true ∧
    (patchedStat mount scheme fetch st (slash :: p')).2.2 =
      [pathToURL scheme (stripLeadingSlashes p')] := by
  have habs : jsStartsWith (slash :: p') [slash] = true := by
    simp only [jsStartsWith, decide_eq_true_eq]
    exact ⟨p', rfl⟩
  have hn : normalizeToMount mount (slash :: p') = some (mount ++ slash :: p') := by
    rw [normalizeToMount, if_neg (by simp), hout, habs]
    simp
  refine ⟨hn, isWithinMount_mount_append mount p', ?_⟩
  have hself : jsStartsWith (mount ++ slash :: p') mount = true := by
    simp only [jsStartsWith, decide_eq_true_eq]
    exact ⟨slash :: p', rfl⟩
  have hn2 : normalizeToMount mount (mount ++ slash :: p') =
      some (mount ++ slash :: p') := by
    rw [normalizeToMount, if_neg (by simp [← List.append_cons]), hself]
    simp
  have hens : ensureFileSync mount scheme fetch st (mount ++ slash :: p') =
      ensureFetch scheme fetch st (mount ++ slash :: p') (stripLeadingSlashes p') := by
    rw [ensureFileSync, hn2]
    simp only [isWithinMount_mount_append mount p', if_true,
      extractRemotePath_mount_append mount p' hm, if_neg hrem, hcache]
  rw [patchedStat, hn]
  simp only [hens, ensureFetch]
  cases hfu : fetch (pathToURL scheme (stripLeadingSlashes p')) with
  | none => rfl
  | some data => rfl

/-- C2 witness: the concrete outside path `/etc/hosts` under the
default mount triggers exactly one fetch of `https://etc/hosts`. -/
theorem patchedStat_rewrites_outside_paths_witness :
    normalizeToMount mountPointDefault (slash :: etcHostsTail) =
      some (mountPointDefault ++ slash :: etcHostsTail) ∧
    isWithinMount mountPointDefault (mountPointDefault ++ slash :: etcHostsTail) = true ∧
    (patchedStat mountPointDefault schemeDefault fetchNoneW emptyStW
      (slash :: etcHostsTail)).2.2 =
      [pathToURL schemeDefault (stripLeadingSlashes etcHostsTail)] :=
  patchedStat_rewrites_outside_paths_into_mount mountPointDefault schemeDefault
    fetchNoneW emptyStW etcHostsTail (by decide) (by decide) (by decide) rfl

/-- Helper: repeated lookups of a path whose bytes are already cached
leave the cache untouched, fetch nothing, and serve the cached bytes
every time. -/
theorem accessRepeat_cached (scheme : JStr) (fetch : JStr → Option Bytes)
    (parentRemote name : JStr) (b : Bytes) :
    ∀ (n : Nat) (c : Cache), alistGet c (remoteOf parentRemote name) = some b →
      accessRepeat scheme fetch parentRemote name n c = (c, [], List.replicate n b) := by
  intro n
  induction n with
  | zero => intro c _; rfl
  | succ n ih =>
      intro c hc
      have hl : nodeLookup scheme fetch c parentRemote name =
          (Except.ok (c, remoteOf parentRemote name), []) := by
        rw [nodeLookup, if_pos (by rw [hc]; rfl)]
      simp only [accessRepeat, hl, ih c hc, hc, Option.getD_some,
        List.replicate_succ, List.nil_append]

/-- C3: accesses of an already-cached (and not invalidated) path never
reach the fetch bridge again.  First conjunct (node-tree lookup): after
a first access that fetches and caches, `n` further accesses of the same
path leave the total bridge-call list at exactly one URL and serve the
identical cached bytes every time.  Second conjunct (interception
adapter): `ensureFileSync` on a cached path whose materialized file
still exists returns the cached entry with no fetch. -/
theorem cached_path_fetches_once :
    (∀ (scheme : JStr) (fetch : JStr → Option Bytes) (c : Cache)
      (parentRemote name : JStr) (n : Nat) (b : Bytes),
      alistGet c (remoteOf parentRemote name) = none →
      fetch (pathToURL scheme (remoteOf parentRemote name)) = some b →
      accessRepeat scheme fetch parentRemote name (n + 1) c =
        ((remoteOf parentRemote name, b) :: c,
         [pathToURL scheme (remoteOf parentRemote name)],
         List.replicate (n + 1) b)) ∧
    (∀ (mount scheme : JStr) (fetch : JStr → Option Bytes) (st : InterceptState)
      (p fsPath : JStr) (m : Meta),
      normalizeToMount mount p = some fsPath →
      isWithinMount mount fsPath = true →
      extractRemotePath mount fsPath ≠ [] →
      alistGet st.cache fsPath = some m →
      fileExists st fsPath = true →
      ensureFileSync mount scheme fetch st p = (Except.ok (some m), st, [])) := by
  constructor
  · intro scheme fetch c parentRemote name n b h1 h2
    have hl : nodeLookup scheme fetch c parentRemote name =
        (Except.ok ((remoteOf parentRemote name, b) :: c, remoteOf parentRemote name),
         [pathToURL scheme (remoteOf parentRemote name)]) := by
      rw [nodeLookup, if_neg (by simp [h1]), h2]
    have hcc : alistGet ((remoteOf parentRemote name, b) :: c)
        (remoteOf parentRemote name) = some b := by
      simp [alistGet]
    simp only [accessRepeat, hl, accessRepeat_cached scheme fetch parentRemote name b n _ hcc,
      hcc, Option.getD_some, List.replicate_succ]
    simp
  · intro mount scheme fetch st p fsPath m hn hw hne hcache hfe
    rw [ensureFileSync, hn]
    simp only [hw, if_true, if_neg hne, hcache, hfe]

/-- C3 witness: three accesses of an uncached path fetch exactly once
and serve identical bytes; a cached, still-materialized path returns its
entry through `ensureFileSync` even against an always-failing bridge. -/
theorem cached_path_fetches_once_witness :
    accessRepeat schemeDefault fetchSomeW [] nameW 3 [] =
      ((remoteOf [] nameW, bytesW) :: [],
       [pathToURL schemeDefault (remoteOf [] nameW)],
       List.replicate 3 bytesW) ∧
    ensureFileSync mountPointDefault schemeDefault fetchNoneW stW pSlashA =
      (Except.ok (some metaW), stW, []) :=
  ⟨cached_path_fetches_once.1 schemeDefault fetchSomeW [] [] nameW 2 bytesW rfl rfl,
   cached_path_fetches_once.2 mountPointDefault schemeDefault fetchNoneW stW
     pSlashA pSlashA metaW (by decide) (by decide) (by decide) (by decide) (by decide)⟩

/-- Helper: reading the freshly appended cell of a heap. -/
theorem listAt_append_length {α : Type} (d : α) (l : List α) (x : α) :
    listAt d (l ++ [x]) l.length = x := by
  induction l with
  | nil => rfl
  | cons y ys ih => exact ih

/-- Helper: appending a cell does not change the existing cells. -/
theorem listAt_append_lt {α : Type} (d : α) (l : List α) (x : α) (i : Nat)
    (h : i < l.length) : listAt d (l ++ [x]) i = listAt d l i := by
  induction l generalizing i with
  | nil => exact absurd h (Nat.not_lt_zero i)
  | cons y ys ih =>
      cases i with
      | zero => rfl
      | succ j => exact ih j (by simpa using h)

/-- Helper: overwriting one cell does not change the others. -/
theorem listAt_listSet_ne {α : Type} (d : α) (l : List α) (i j : Nat) (v : α)
    (h : i ≠ j) : listAt d (listSet l j v) i = listAt d l i := by
  induction l generalizing i j with
  | nil => rfl
  | cons y ys ih =>
      cases j with
      | zero =>
          cases i with
          | zero => exact absurd rfl h
          | succ i' => rfl
      | succ j' =>
          cases i with
          | zero => rfl
          | succ i' => exact ih i' j' (fun he => h (by rw [he]))

/-- C7 counterexample: the clone's messages array holds the same
message address `0` as the original's, and mutating that shared message
object through the clone's heap changes the messages observed through
the original state — `clone()` does not isolate element-level mutation
as the claim states. -/
theorem clone_shares_message_elements_cex :
    0 ∈ listAt [] (cloneRef heapCex stateRefCex).1.arrays
      (cloneRef heapCex stateRefCex).2.messagesRef ∧
    readMessages (setCell (cloneRef heapCex stateRefCex).1 0 msgB) stateRefCex ≠
      readMessages heapCex stateRefCex :=
  ⟨by decide, by decide⟩

/-- C7 (amended): `clone()` is independent at the container level — the
clone's messages array is a fresh cell, the other fields are value
copies, and pushing a message through the clone leaves the original's
observed messages unchanged — but the message objects inside `messages`
are shared by reference (the fresh array holds the same addresses), so
in-place mutation of an element through the clone alters the original. -/
theorem clone_fresh_top_level_containers (h : MsgHeap) (s : AgentStateRef)
    (href : s.messagesRef < h.arrays.length) :
    (cloneRef h s).2.messagesRef ≠ s.messagesRef ∧
    (cloneRef h s).2.stepCount = s.stepCount ∧
    (cloneRef h s).2.outputCapture = s.outputCapture ∧
    (cloneRef h s).2.networkCache = s.networkCache ∧
    (cloneRef h s).2.outputFiles = s.outputFiles ∧
    (cloneRef h s).2.done = s.done ∧
    (cloneRef h s).2.metadata = s.metadata ∧
    readMessages (cloneRef h s).1 s = readMessages h s ∧
    readMessages (cloneRef h s).1 (cloneRef h s).2 = readMessages h s ∧
    (∀ r, readMessages (arrayPush (cloneRef h s).1 (cloneRef h s).2.messagesRef r) s =
      readMessages h s) := by
  refine ⟨?_, rfl, rfl, rfl, rfl, rfl, rfl, ?_, ?_, ?_⟩
  · simp only [cloneRef]
    omega
  · simp only [readMessages, cloneRef]
    rw [listAt_append_lt [] h.arrays _ s.messagesRef href]
  · simp only [readMessages, cloneRef]
    rw [listAt_append_length]
  · intro r
    simp only [readMessages, cloneRef, arrayPush]
    rw [listAt_listSet_ne [] _ s.messagesRef h.arrays.length _ (by omega)]
    rw [listAt_append_lt [] h.arrays _ s.messagesRef href]

/-- C7 witness: the amended independence facts at the concrete heap. -/
theorem clone_fresh_top_level_containers_witness :
    (cloneRef heapCex stateRefCex).2.messagesRef ≠ stateRefCex.messagesRef ∧
    readMessages (cloneRef heapCex stateRefCex).1 (cloneRef heapCex stateRefCex).2 =
      readMessages heapCex stateRefCex ∧
    readMessages (arrayPush (cloneRef heapCex stateRefCex).1
      (cloneRef heapCex stateRefCex).2.messagesRef 0) stateRefCex =
      readMessages heapCex stateRefCex :=
  ⟨(clone_fresh_top_level_containers heapCex stateRefCex (by decide)).1,
   (clone_fresh_top_level_containers heapCex stateRefCex (by decide)).2.2.2.2.2.2.2.2.1,
   (clone_fresh_top_level_containers heapCex stateRefCex (by decide)).2.2.2.2.2.2.2.2.2 0⟩

/-- Helper (execute phase): when no snapshot above the current step
exists, every remaining iteration executes a step, so the loop performs
exactly `maxSteps - stepCount` further executions and stops at the step
cap.  `exec` increments the counter by one and never completes. -/
theorem loop_exec_phase (exec : AgentState → AgentState) (maxSteps : Nat)
    (hstep : ∀ s, (exec s).stepCount = s.stepCount + 1)
    (hdone : ∀ s, (exec s).done = false) :
    ∀ (fuel : Nat) (s : AgentState) (store : SnapStore) (cnt : Nat),
      (∀ i, s.stepCount < i → alistGet store i = none) →
      s.stepCount ≤ maxSteps →
      maxSteps - s.stepCount ≤ fuel →
      (agenticLoopAux exec maxSteps fuel s store cnt).2.2 =
        cnt + (maxSteps - s.stepCount) ∧
      (agenticLoopAux exec maxSteps fuel s store cnt).1.stepCount = maxSteps := by
  intro fuel
  induction fuel with
  | zero =>
      intro s store cnt _ hle hf
      have heq : s.stepCount = maxSteps := by omega
      simp [agenticLoopAux, heq]
  | succ fuel ih =>
      intro s store cnt hn hle hf
      by_cases hlt : s.stepCount < maxSteps
      · have hlook : alistGet store (s.stepCount + 1) = none := hn _ (by omega)
        have hn' : ∀ i, (exec s).stepCount < i →
            alistGet (((exec s).stepCount, exec s) :: store) i = none := by
          intro i hi
          rw [alistGet, if_neg (by omega)]
          exact hn i (by rw [hstep s] at hi; omega)
        have hrec := ih (exec s) (((exec s).stepCount, exec s) :: store) (cnt + 1)
          hn' (by rw [hstep s]; omega) (by rw [hstep s]; omega)
        simp only [agenticLoopAux, if_pos hlt, hlook, hdone s, Bool.false_eq_true,
          if_false]
        rw [hrec.1, hrec.2, hstep s]
        refine ⟨by omega, rfl⟩
      · have hge : s.stepCount = maxSteps := by omega
        simp [agenticLoopAux, hlt, hge]

/-- Helper (resume phase): with unexpired snapshots persisted for steps
`1..k` and none beyond, the loop adopts the snapshots without executing
and then executes every remaining step: starting at or below step `k`
it performs exactly `maxSteps - k` executions. -/
theorem loop_resume_phase (exec : AgentState → AgentState) (maxSteps k : Nat)
    (store : SnapStore)
    (hstep : ∀ s, (exec s).stepCount = s.stepCount + 1)
    (hdone : ∀ s, (exec s).done = false)
    (hsnap : ∀ i, 1 ≤ i → i ≤ k → ∃ s, alistGet store i = some s ∧
      s.stepCount = i ∧ s.done = false)
    (hnone : ∀ i, k < i → alistGet store i = none)
    (hk : k ≤ maxSteps) :
    ∀ (fuel : Nat) (s : AgentState) (cnt : Nat),
      s.stepCount ≤ k →
      maxSteps - s.stepCount ≤ fuel →
      (agenticLoopAux exec maxSteps fuel s store cnt).2.2 =
        cnt + (maxSteps - k) ∧
      (agenticLoopAux exec maxSteps fuel s store cnt).1.stepCount = maxSteps := by
  intro fuel
  induction fuel with
  | zero =>
      intro s cnt hsk hf
      have heq : s.stepCount = maxSteps := by omega
      have hkeq : k = maxSteps := by omega
      simp [agenticLoopAux, heq, hkeq]
  | succ fuel ih =>
      intro s cnt hsk hf
      by_cases hlt : s.stepCount < maxSteps
      · by_cases hck : s.stepCount + 1 ≤ k
        · obtain ⟨cs, hlook, hcs, hcdone⟩ := hsnap (s.stepCount + 1) (by omega) hck
          have hrec := ih cs cnt (by omega) (by omega)
          simp only [agenticLoopAux, if_pos hlt, hlook, hcdone, Bool.false_eq_true,
            if_false]
          exact hrec
        · have hkeq : s.stepCount = k := by omega
          have hlook : alistGet store (s.stepCount + 1) = none :=
            hnone _ (by omega)
          have hn' : ∀ i, (exec s).stepCount < i →
              alistGet (((exec s).stepCount, exec s) :: store) i = none := by
            intro i hi
            rw [alistGet, if_neg (by omega)]
            exact hnone i (by rw [hstep s, hkeq] at hi; omega)
          have hrec := loop_exec_phase exec maxSteps hstep hdone fuel (exec s)
            (((exec s).stepCount, exec s) :: store) (cnt + 1) hn'
            (by rw [hstep s]; omega) (by rw [hstep s]; omega)
          simp only [agenticLoopAux, if_pos hlt, hlook, hdone s, Bool.false_eq_true,
            if_false]
          rw [hrec.1, hrec.2, hstep s, hkeq]
          refine ⟨by omega, rfl⟩
      · have heq : s.stepCount = maxSteps := by omega
        have hkeq : k = maxSteps := by omega
        simp [agenticLoopAux, hlt, heq, hkeq]

/-- C1: resume correctness of the durable step loop.  Each iteration
first looks up the persisted snapshot for step `stepCount + 1`, adopts
it and skips execution when present, and otherwise executes the step —
which increments the counter to `stepCount + 1` — and persists the
result under that step number.  Consequently, after a crash that left
snapshots exactly for steps `1..k` (each recorded at its own step
count, none completed), restarting from a fresh initial state executes
the reasoning step exactly `maxSteps - k` more times — steps `1..k` are
never re-executed — and finishes at step `maxSteps`. -/
theorem agenticLoop_resume_reexecutes_only_missing_steps
    (exec : AgentState → AgentState) (maxSteps k fuel : Nat)
    (store : SnapStore) (s0 : AgentState)
    (hstep : ∀ s, (exec s).stepCount = s.stepCount + 1)
    (hdone : ∀ s, (exec s).done = false)
    (hsnap : ∀ i, 1 ≤ i → i ≤ k → ∃ s, alistGet store i = some s ∧
      s.stepCount = i ∧ s.done = false)
    (hnone : ∀ i, k < i → alistGet store i = none)
    (hk : k ≤ maxSteps) (hs0 : s0.stepCount = 0) (hfuel : maxSteps ≤ fuel) :
    (agenticLoopAux exec maxSteps fuel s0 store 0).2.2 = maxSteps - k ∧
    (agenticLoopAux exec maxSteps fuel s0 store 0).1.stepCount = maxSteps := by
  have h := loop_resume_phase exec maxSteps k store hstep hdone hsnap hnone hk
    fuel s0 0 (by omega) (by omega)
  rw [h.1, h.2]
  exact ⟨by omega, rfl⟩

/-- C1 witness: with snapshots persisted for steps 1 and 2 of a
five-step run, the restarted loop executes exactly three further steps
and finishes at step 5. -/
theorem agenticLoop_resume_witness :
    (agenticLoopAux execW 5 5 (stateW 0) storeW 0).2.2 = 5 - 2 ∧
    (agenticLoopAux execW 5 5 (stateW 0) storeW 0).1.stepCount = 5 :=
  agenticLoop_resume_reexecutes_only_missing_steps execW 5 2 5 storeW (stateW 0)
    (fun _ => rfl) (fun _ => rfl)
    (by
      intro i h1 h2
      interval_cases i
      · exact ⟨stateW 1, rfl, rfl, rfl⟩
      · exact ⟨stateW 2, rfl, rfl, rfl⟩)
    (by
      intro i hi
      simp only [storeW, alistGet]
      rw [if_neg (by omega), if_neg (by omega)])
    (by omega) rfl (by omega)

end MiniAgent
